import Mathlib

/-!
Verification of the PubMed abstract fetcher/analyzer (wenjianshaixuan.py).

The Python source is shallowly embedded below.  Python strings are Lean
Strings (lists of characters); Python None-or-string values are
Option String; the outcome of the effectful part of get_pubmed_abstract
(the HTTP request, raise_for_status and HTML parsing inside the try block)
is an explicit FetchOutcome value: either an exception message or a parsed
document.  BeautifulSoup query results (soup.find of the abstract div,
of the two meta tags, and soup.find_all of paragraphs) are the fields of
the Doc structure; attribute lookups with defaults (tag.get) are Options.
Python dicts keyed by strings are association lists with in-place
overwrite, matching dict insertion-order semantics.
ASCII-level models are used for str.lower, str.strip and the regex
whitespace class; none of the verified claims involve non-ASCII text.
-/

namespace Pubmed

/-- Python whitespace for str.strip and the regex class backslash-s
(ASCII part: space, tab, newline, carriage return, vertical tab, form feed). -/
def pyIsSpace (c : Char) : Bool :=
  c = ' ' || c = '\t' || c = '\n' || c = '\r' || c = '\x0b' || c = '\x0c'

/-- str.strip on a character list: drop whitespace from both ends. -/
def stripList (l : List Char) : List Char :=
  ((l.dropWhile pyIsSpace).reverse.dropWhile pyIsSpace).reverse

/-- Python str.strip(). -/
def pyStrip (s : String) : String := ⟨stripList s.data⟩

/-- Python str.lower(), character-wise (ASCII). -/
def pyLower (s : String) : String := ⟨s.data.map Char.toLower⟩

/-- Substring test on character lists: does w occur contiguously in s?
Embeds the Python expression w in s. -/
def infixOf (w : List Char) : List Char → Bool
  | [] => w.isPrefixOf []
  | c :: rest => w.isPrefixOf (c :: rest) || infixOf w rest

/-- Python membership test pat in s for strings (substring containment). -/
def strContains (s pat : String) : Bool := infixOf pat.data s.data

/-- Python s.startswith(pre). -/
def pyStartsWith (s pre : String) : Bool := pre.data.isPrefixOf s.data

/-- Python str.split(sep) with an explicit one-character separator:
splits at every occurrence, keeping empty pieces. -/
def splitOnChar (sep : Char) : List Char → List (List Char)
  | [] => [[]]
  | c :: rest =>
    let r := splitOnChar sep rest
    if c = sep then [] :: r
    else
      match r with
      | [] => [[c]]
      | x :: xs => (c :: x) :: xs

/-- Scanner for Python s.count(w) with non-empty w: at skip 0 it tests for a
match at the current position and, on a match, skips the rest of the matched
text (non-overlapping greedy counting, exactly str.count); the Nat argument
is the number of positions still to skip after a match. -/
def countAux (w : List Char) : Nat → List Char → Nat
  | _, [] => 0
  | 0, c :: rest =>
    if w.isPrefixOf (c :: rest) then countAux w (w.length - 1) rest + 1
    else countAux w 0 rest
  | k + 1, _ :: rest => countAux w k rest

/-- Python s.count(w): number of non-overlapping occurrences of w in s;
for empty w Python returns len(s) + 1. -/
def strCount (s w : String) : Nat :=
  if w.data = [] then s.data.length + 1 else countAux w.data 0 s.data

/-- Does the character list (a reversed sentence accumulator) start with
one of the sentence-ending punctuation marks of the splitting regex? -/
def headIsPunct : List Char → Bool
  | [] => false
  | c :: _ => c = '.' || c = '!' || c = '?'

/-- Embedding of re.split with pattern: lookbehind for one of . ! ? followed
by one or more whitespace characters.  The accumulator holds the current
sentence reversed; skip is true while consuming the whitespace run that a
match of the pattern eats greedily. -/
def splitAux : Bool → List Char → List Char → List (List Char)
  | _, acc, [] => [acc.reverse]
  | skip, acc, c :: rest =>
    if skip && pyIsSpace c then splitAux true acc rest
    else if pyIsSpace c && headIsPunct acc then
      acc.reverse :: splitAux true [] rest
    else splitAux false (c :: acc) rest

/-- The sentence splitter of analyze_words_in_abstract (line 73). -/
def splitSentences (s : String) : List String :=
  (splitAux false [] s.data).map fun l => ⟨l⟩

/-- The per-term analysis record stored in the results dict. -/
structure Entry where
  count : Nat
  sentences : List String
deriving DecidableEq

/-- The value analyze_words_in_abstract computes for one (already
lower-cased) search word over abstract a (lines 80 to 92). -/
def mkEntry (a word : String) : Entry where
  count := strCount (pyLower a) word
  sentences :=
    ((splitSentences a).filter fun s => strContains (pyLower s) word).map pyStrip

/-- Python dict assignment results[k] = v on an association list:
replaces the value in place when the key exists, else appends. -/
def dictInsert (k : String) (v : Entry) : List (String × Entry) → List (String × Entry)
  | [] => [(k, v)]
  | (k', v') :: rest =>
    if k' = k then (k, v) :: rest else (k', v') :: dictInsert k v rest

/-- The loop of analyze_words_in_abstract over words_to_find
(lines 78 to 92): lower-case the word, build its entry, store it. -/
def analyzeBody (a : String) (words : List String) : List (String × Entry) :=
  words.foldl (fun res w => dictInsert (pyLower w) (mkEntry a (pyLower w)) res) []

/-- analyze_words_in_abstract (lines 57 to 94).  The Python guard
if not abstract returns None when the argument is None or the empty
string; otherwise the results dict is built and returned. -/
def analyzeWordsInAbstract (abstract : Option String) (words : List String) :
    Option (List (String × Entry)) :=
  match abstract with
  | none => none
  | some a => if a = "" then none else some (analyzeBody a words)

/-- A paragraph tag from soup.find_all of p tags: its class attribute
(a list of class tokens in BeautifulSoup, absent when the tag has no class),
its id attribute, and its visible text p.get_text(). -/
structure PTag where
  classes : Option (List String)
  id : Option String
  text : String
deriving DecidableEq

/-- The BeautifulSoup query results that get_pubmed_abstract inspects:
the text of the div with class abstract when one exists, the content
attribute of the meta tags named description and citation_abstract
(outer Option: tag present; inner Option: content attribute present),
and all paragraph tags in document order. -/
structure Doc where
  abstractDiv : Option String
  metaDesc : Option (Option String)
  citationAbstract : Option (Option String)
  paragraphs : List PTag
deriving DecidableEq

/-- Python truthiness of the abstract variable inside get_pubmed_abstract:
falsy when it is still None or has become the empty string. -/
def falsy : Option String → Bool
  | none => true
  | some s => s == ""

/-- The condition of extraction method 4 (line 50): trimmed text longer
than 100 characters, and the class token list contains abstract
(exact list membership in Python) or the id string contains abstract
(substring membership in Python). -/
def pMatch (p : PTag) : Bool :=
  decide (100 < (pyStrip p.text).length) &&
    ((p.classes.getD []).contains "abstract" || strContains (p.id.getD "") "abstract")

/-- Extraction method 4 (lines 47 to 52): first matching paragraph wins. -/
def method4 : List PTag → Option String
  | [] => none
  | p :: ps => if pMatch p then some (pyStrip p.text) else method4 ps

/-- The abstract variable after extraction method 1 (lines 32 to 35). -/
def stage1 (doc : Doc) : Option String := doc.abstractDiv.map pyStrip

/-- The abstract variable after extraction method 2 (lines 36 to 40). -/
def stage2 (doc : Doc) : Option String :=
  if falsy (stage1 doc) then
    match doc.metaDesc with
    | some c => some (pyStrip (c.getD ""))
    | none => stage1 doc
  else stage1 doc

/-- The abstract variable after extraction method 3 (lines 41 to 45). -/
def stage3 (doc : Doc) : Option String :=
  if falsy (stage2 doc) then
    match doc.citationAbstract with
    | some c => some (pyStrip (c.getD ""))
    | none => stage2 doc
  else stage2 doc

/-- The abstract extraction of get_pubmed_abstract on a successfully
fetched and parsed page (lines 29 to 53). -/
def extractAbstract (doc : Doc) : Option String :=
  if falsy (stage3 doc) then
    match method4 doc.paragraphs with
    | some t => some t
    | none => stage3 doc
  else stage3 doc

/-- What the try block of get_pubmed_abstract did: either some exception
was raised (by the request, raise_for_status, or parsing) whose string
form is msg, or the page was fetched and parsed into doc. -/
inductive FetchOutcome where
  | failure (msg : String)
  | success (doc : Doc)

/-- The message built by the except handler (line 55). -/
def errorMessage (msg : String) : String := "Error fetching PubMed article: " ++ msg

/-- get_pubmed_abstract (lines 11 to 55): on any exception it returns the
error string; otherwise it returns the extraction result, which may be
None when no method matched. -/
def getPubmedAbstract : FetchOutcome → Option String
  | .failure msg => some (errorMessage msg)
  | .success doc => extractAbstract doc

/-- One output block of the Analyze button handler for one PubMed id:
the success branch (abstract shown, analysis results rendered), the
warning branch (abstract shown but the results dict was falsy), or the
error branch with the extra text appended to the error notice
(the abstract value when truthy, else the empty string). -/
inductive Block where
  | success (pid abstract : String) (results : List (String × Entry))
  | analyzeFailed (pid abstract : String)
  | failure (pid extra : String)
deriving DecidableEq

/-- The PubMed id a block reports in its header. -/
def blockId : Block → String
  | .success pid _ _ => pid
  | .analyzeFailed pid _ => pid
  | .failure pid _ => pid

/-- Did the handler take the success branch of line 107 (display the
abstract and run the analyzer) for this block? -/
def isSuccessPath : Block → Bool
  | .failure _ _ => false
  | _ => true

/-- The body of the per-identifier loop (lines 105 to 123), given the value
fetchRes returned by get_pubmed_abstract for this id.  The Python test
is: abstract truthy and not abstract.startswith of Error.  In the success
branch the analyzer runs and its dict is rendered when truthy (results is
falsy when it is None or the empty dict). -/
def processOne (fetchRes : Option String) (words : List String) (pid : String) : Block :=
  match fetchRes with
  | some a =>
    if a ≠ "" ∧ pyStartsWith a "Error" = false then
      match analyzeWordsInAbstract (some a) words with
      | some rs => if rs = [] then .analyzeFailed pid a else .success pid a rs
      | none => .analyzeFailed pid a
    else .failure pid (if a = "" then "" else a)
  | none => .failure pid ""

/-- The loop over pubmed_ids (line 104), with the fetcher abstracted as a
function from id to its result. -/
def runAll (fetch : String → Option String) (words : List String)
    (ids : List String) : List Block :=
  ids.map fun pid => processOne (fetch pid) words pid

/-- Parsing of the PubMed ids text area (line 102): strip the whole input,
split on newlines, strip each line, keep the non-empty ones. -/
def parseIds (input : String) : List String :=
  ((((splitOnChar '\n' (pyStrip input).data).map fun l => (⟨l⟩ : String)).map
    pyStrip).filter fun s => s ≠ "")

/-- Parsing of the comma-separated words input (line 103). -/
def parseWords (input : String) : List String :=
  ((((splitOnChar ',' input.data).map fun l => (⟨l⟩ : String)).map
    pyStrip).filter fun s => s ≠ "")

/-- The whole Analyze button handler (lines 101 to 123). -/
def analyzeButton (fetch : String → Option String) (idsInput wordsInput : String) :
    List Block :=
  runAll fetch (parseWords wordsInput) (parseIds idsInput)

/-! Helper lemmas about the string primitives. -/

lemma infixOf_iff (w : List Char) : ∀ s, infixOf w s = true ↔ w <:+: s
  | [] => by simp [infixOf]
  | c :: rest => by
    rw [List.infix_cons_iff]
    simp [infixOf, infixOf_iff w rest]

lemma countAux_pos (w : List Char) (hw : w ≠ []) :
    ∀ s, infixOf w s = true → 1 ≤ countAux w 0 s
  | [], h => by
    cases w with
    | nil => exact absurd rfl hw
    | cons a w => simp [infixOf, List.isPrefixOf] at h
  | c :: rest, h => by
    by_cases hp : w.isPrefixOf (c :: rest)
    · simp only [countAux, hp, if_true]
      omega
    · have h2 : infixOf w rest = true := by
        have := h
        simp only [infixOf, Bool.or_eq_true] at this
        rcases this with h3 | h3
        · exact absurd h3 (by simpa using hp)
        · exact h3
      have := countAux_pos w hw rest h2
      simpa [countAux, hp] using this

lemma strCount_pos (s w : String) (h : strContains s w = true) : 1 ≤ strCount s w := by
  by_cases hw : w.data = []
  · simp [strCount, hw]
  · have : 1 ≤ countAux w.data 0 s.data := countAux_pos w.data hw s.data h
    simpa [strCount, hw] using this

lemma splitAux_infix (l : List Char) : ∀ (skip : Bool) (acc : List Char),
    (skip = true → acc = []) → ∀ s ∈ splitAux skip acc l, s <:+: acc.reverse ++ l := by
  induction l with
  | nil =>
    intro skip acc _ s hs
    simp only [splitAux, List.mem_singleton] at hs
    subst hs
    exact ⟨[], [], by simp⟩
  | cons c rest ih =>
    intro skip acc hinv s hs
    simp only [splitAux] at hs
    by_cases h1 : skip && pyIsSpace c
    · rw [if_pos h1] at hs
      have hacc : acc = [] := hinv (Bool.and_elim_left h1)
      subst hacc
      have := ih true [] (fun _ => rfl) s hs
      simp only [List.reverse_nil, List.nil_append] at this ⊢
      exact this.trans ⟨[c], [], by simp⟩
    · rw [if_neg h1] at hs
      by_cases h2 : pyIsSpace c && headIsPunct acc
      · rw [if_pos h2] at hs
        rcases List.mem_cons.mp hs with rfl | hs2
        · exact ⟨[], c :: rest, by simp⟩
        · have := ih true [] (fun _ => rfl) s hs2
          simp only [List.reverse_nil, List.nil_append] at this
          exact this.trans ⟨acc.reverse ++ [c], [], by simp⟩
      · rw [if_neg h2] at hs
        have := ih false (c :: acc) (by simp) s hs
        simpa using this

lemma splitSentences_infix (a s : String) (h : s ∈ splitSentences a) :
    s.data <:+: a.data := by
  simp only [splitSentences, List.mem_map] at h
  obtain ⟨l, hl, rfl⟩ := h
  have := splitAux_infix a.data false [] (by simp) l hl
  simpa using this

/-! Helper lemmas about the results dictionary. -/

lemma dictInsert_key_mem (k : String) (v : Entry) :
    ∀ l, k ∈ (dictInsert k v l).map Prod.fst
  | [] => by simp [dictInsert]
  | (k', v') :: rest => by
    by_cases h : k' = k
    · simp [dictInsert, h]
    · simpa [dictInsert, h] using Or.inr (dictInsert_key_mem k v rest)

lemma dictInsert_key_mono (k : String) (v : Entry) (k2 : String) :
    ∀ l, k2 ∈ l.map Prod.fst → k2 ∈ (dictInsert k v l).map Prod.fst
  | [], h => by simp at h
  | (k', v') :: rest, h => by
    by_cases hk : k' = k
    · subst hk
      simpa [dictInsert] using (by simpa using h)
    · rcases (by simpa using h : k2 = k' ∨ k2 ∈ rest.map Prod.fst) with rfl | h2
      · simp [dictInsert, hk]
      · simpa [dictInsert, hk] using Or.inr (dictInsert_key_mono k v k2 rest h2)

lemma foldl_key_mem (a t : String) : ∀ (ws : List String) (init : List (String × Entry)),
    (pyLower t ∈ init.map Prod.fst ∨ t ∈ ws) →
    pyLower t ∈
      ((ws.foldl (fun res w => dictInsert (pyLower w) (mkEntry a (pyLower w)) res)
        init).map Prod.fst)
  | [], init, h => by
    rcases h with h | h
    · simpa using h
    · simp at h
  | w :: ws, init, h => by
    rw [List.foldl_cons]
    apply foldl_key_mem a t ws
    rcases h with h | h
    · exact Or.inl (dictInsert_key_mono _ _ _ init h)
    · rcases List.mem_cons.mp h with rfl | h2
      · exact Or.inl (dictInsert_key_mem _ _ init)
      · exact Or.inr h2

lemma analyzeBody_key_mem (a t : String) (ws : List String) (h : t ∈ ws) :
    pyLower t ∈ (analyzeBody a ws).map Prod.fst :=
  foldl_key_mem a t ws [] (Or.inr h)

lemma dictInsert_inv (a k : String) (v : Entry) (hv : v = mkEntry a k) :
    ∀ l, (∀ p ∈ l, Prod.snd p = mkEntry a (Prod.fst p)) →
    ∀ p ∈ dictInsert k v l, Prod.snd p = mkEntry a (Prod.fst p)
  | [], _, p, hp => by
    simp only [dictInsert, List.mem_singleton] at hp
    subst hp
    simpa using hv
  | (k', v') :: rest, hl, p, hp => by
    by_cases hk : k' = k
    · simp only [dictInsert, hk, if_true] at hp
      rcases List.mem_cons.mp hp with rfl | h2
      · simpa using hv
      · exact hl p (List.mem_cons_of_mem _ h2)
    · simp only [dictInsert, hk, if_false] at hp
      rcases List.mem_cons.mp hp with rfl | h2
      · exact hl (k', v') (List.mem_cons_self _ _)
      · exact dictInsert_inv a k v hv rest
          (fun q hq => hl q (List.mem_cons_of_mem _ hq)) p h2

lemma foldl_inv (a : String) : ∀ (ws : List String) (init : List (String × Entry)),
    (∀ p ∈ init, Prod.snd p = mkEntry a (Prod.fst p)) →
    ∀ p ∈ ws.foldl (fun res w => dictInsert (pyLower w) (mkEntry a (pyLower w)) res) init,
      Prod.snd p = mkEntry a (Prod.fst p)
  | [], init, hinit, p, hp => hinit p (by simpa using hp)
  | w :: ws, init, hinit, p, hp => by
    rw [List.foldl_cons] at hp
    exact foldl_inv a ws _ (dictInsert_inv a (pyLower w) _ rfl init hinit) p hp

lemma analyzeBody_mem (a : String) (ws : List String) (k : String) (e : Entry)
    (h : (k, e) ∈ analyzeBody a ws) : e = mkEntry a k :=
  foldl_inv a ws [] (by simp) (k, e) h

/-! Helper lemmas about the fetcher and the driver loop. -/

lemma method4_eq_find : ∀ ps : List PTag,
    method4 ps = (ps.find? pMatch).map fun p => pyStrip p.text
  | [] => rfl
  | p :: ps => by
    by_cases h : pMatch p
    · simp [method4, List.find?, h]
    · simp [method4, List.find?, h, method4_eq_find ps]

lemma blockId_processOne (r : Option String) (ws : List String) (pid : String) :
    blockId (processOne r ws pid) = pid := by
  cases r with
  | none => rfl
  | some a =>
    simp only [processOne]
    split
    · cases analyzeWordsInAbstract (some a) ws with
      | none => rfl
      | some rs =>
        by_cases h : rs = []
        · simp [h, blockId]
        · simp [h, blockId]
    · rfl

/-! The claims. -/

/-- C1: for every identifier, the fetch routine never propagates an
exception: whatever the try block raised (transport failure, bad HTTP
status via raise_for_status, or a parsing exception), get_pubmed_abstract
returns the result value built by the except handler, a human-readable
message whose text contains the underlying error text. -/
theorem C1_fetch_never_raises (msg : String) :
    getPubmedAbstract (.failure msg) = some (errorMessage msg) ∧
    strContains (errorMessage msg) msg = true := by
  refine ⟨rfl, ?_⟩
  have h : msg.data <:+: (errorMessage msg).data := by
    rw [errorMessage, String.data_append]
    exact ⟨("Error fetching PubMed article: " : String).data, [], by simp⟩
  exact (infixOf_iff msg.data (errorMessage msg).data).mpr h

/-- C4: the count stored for a term equals the number of non-overlapping
substring occurrences of the (lower-cased) term in the lower-cased
abstract, as computed by the str.count embedding strCount; in particular
analyzing the single word abstract over the text
abstractabstractabstract yields count 3 (no word-boundary restriction). -/
theorem C4_count_is_substring_count (a : String) (ws : List String) (k : String)
    (e : Entry) (h : (k, e) ∈ analyzeBody a ws) :
    e.count = strCount (pyLower a) k ∧
    analyzeWordsInAbstract (some "abstractabstractabstract") ["abstract"] =
      some [("abstract", { count := 3, sentences := ["abstractabstractabstract"] })] := by
  refine ⟨?_, by decide⟩
  rw [analyzeBody_mem a ws k e h]
  rfl

theorem C4_witness :
    ({ count := 3, sentences := ["abstractabstractabstract"] } : Entry).count =
      strCount (pyLower "abstractabstractabstract") "abstract" ∧
    analyzeWordsInAbstract (some "abstractabstractabstract") ["abstract"] =
      some [("abstract", { count := 3, sentences := ["abstractabstractabstract"] })] :=
  C4_count_is_substring_count "abstractabstractabstract" ["abstract"] "abstract"
    { count := 3, sentences := ["abstractabstractabstract"] } (by decide)

/-- C5: the matching sentences stored for a term are exactly the sentences
of the abstract (split after . or ! or ? followed by whitespace, the
punctuation staying with the preceding sentence), in document order with
original casing, individually trimmed, whose lower-cased form contains the
term; in particular the two-sentence example yields count 2 and both
sentences. -/
theorem C5_matching_sentences (a : String) (ws : List String) (k : String)
    (e : Entry) (h : (k, e) ∈ analyzeBody a ws) :
    e.sentences =
      ((splitSentences a).filter fun s => strContains (pyLower s) k).map pyStrip ∧
    analyzeWordsInAbstract (some "Cats are great. Dogs are great too!") ["great"] =
      some [("great",
        { count := 2, sentences := ["Cats are great.", "Dogs are great too!"] })] := by
  refine ⟨?_, by decide⟩
  rw [analyzeBody_mem a ws k e h]
  rfl

theorem C5_witness :
    ({ count := 2, sentences := ["Cats are great.", "Dogs are great too!"] } : Entry).sentences =
      ((splitSentences "Cats are great. Dogs are great too!").filter
        fun s => strContains (pyLower s) "great").map pyStrip ∧
    analyzeWordsInAbstract (some "Cats are great. Dogs are great too!") ["great"] =
      some [("great",
        { count := 2, sentences := ["Cats are great.", "Dogs are great too!"] })] :=
  C5_matching_sentences "Cats are great. Dogs are great too!" ["great"] "great"
    { count := 2, sentences := ["Cats are great.", "Dogs are great too!"] } (by decide)

/-- C7: the driver loop emits exactly one output block per identifier, in
input order, whatever the per-identifier fetch results are; a failing
identifier does not stop the processing of the remaining ones.  The last
conjunct ties the full button handler to the loop over the parsed inputs. -/
theorem C7_one_block_per_id_in_order (fetch : String → Option String)
    (words ids : List String) :
    (runAll fetch words ids).map blockId = ids ∧
    (runAll fetch words ids).length = ids.length ∧
    (∀ idsInput wordsInput, analyzeButton fetch idsInput wordsInput =
      runAll fetch (parseWords wordsInput) (parseIds idsInput)) := by
  refine ⟨?_, by simp [runAll], fun _ _ => rfl⟩
  simp only [runAll, List.map_map]
  rw [show (blockId ∘ fun pid => processOne (fetch pid) words pid) = id from
    funext fun pid => blockId_processOne _ _ _, List.map_id]

/-- C8: the analyzer returns the absent result (Python None) both on the
absent abstract and on the empty-string abstract, for every term list. -/
theorem C8_absent_or_empty_abstract (words : List String) :
    analyzeWordsInAbstract none words = none ∧
    analyzeWordsInAbstract (some "") words = none :=
  ⟨rfl, by simp [analyzeWordsInAbstract]⟩

/-- The reading of extraction method 4 given by the spec, for comparison
with the code: the class-list condition is a SUBSTRING test on each class
token, where the code tests exact membership of the token abstract. -/
def method4Spec : List PTag → Option String
  | [] => none
  | p :: ps =>
    if decide (100 < (pyStrip p.text).length) &&
        ((p.classes.getD []).any (fun c => strContains c "abstract") ||
          strContains (p.id.getD "") "abstract")
    then some (pyStrip p.text) else method4Spec ps

/-- A paragraph whose only class token merely CONTAINS the substring
abstract, with a trimmed text longer than 100 characters. -/
def paraClassSubstr : PTag :=
  { classes := some ["abstract-text"]
  , id := none
  , text := "This paragraph describes the background, methods, results and conclusions of the study in enough detail that its trimmed text is well over one hundred characters long." }

/-- A page on which methods 1 to 3 find nothing and the only paragraph is
paraClassSubstr. -/
def docClassSubstr : Doc :=
  { abstractDiv := none, metaDesc := none, citationAbstract := none
  , paragraphs := [paraClassSubstr] }

set_option maxRecDepth 16384 in
/-- C2 counterexample: on docClassSubstr the claim predicts that method 4
returns the paragraph text (its class token abstract-text contains the
substring abstract and its text is longer than 100 characters), but the
code tests exact membership of abstract in the class token list and
extracts nothing. -/
theorem C2_counterexample :
    extractAbstract docClassSubstr = none ∧
    method4Spec docClassSubstr.paragraphs = some (pyStrip paraClassSubstr.text) ∧
    (pyStrip paraClassSubstr.text).length > 100 := by
  refine ⟨by decide, by decide, by decide⟩

/-- C2 (amended): when methods 1 to 3 yield no value, the result is the
trimmed text of the first paragraph in document order whose class token
list contains abstract as an EXACT token or whose id contains the
substring abstract, and whose trimmed text length exceeds 100. -/
theorem C2_method4_first_match (doc : Doc) (p : PTag)
    (h1 : falsy (stage3 doc) = true) (h2 : doc.paragraphs.find? pMatch = some p) :
    extractAbstract doc = some (pyStrip p.text) := by
  simp [extractAbstract, h1, method4_eq_find, h2]

/-- A paragraph carrying the exact class token abstract. -/
def paraClassExact : PTag :=
  { classes := some ["abstract"]
  , id := none
  , text := "This paragraph likewise describes the background, methods, results and conclusions of the study in enough detail to be well over one hundred characters long." }

/-- A page on which methods 1 to 3 find nothing and the only paragraph is
paraClassExact. -/
def docClassExact : Doc :=
  { abstractDiv := none, metaDesc := none, citationAbstract := none
  , paragraphs := [paraClassExact] }

set_option maxRecDepth 16384 in
theorem C2_witness : extractAbstract docClassExact = some (pyStrip paraClassExact.text) :=
  C2_method4_first_match docClassExact paraClassExact (by decide) (by decide)

/-- C3 counterexample: analyze does not trim its terms.  For the input
term with surrounding blanks, the result is keyed by the lower-cased
UNTRIMMED text, and there is no entry under the lower-cased trimmed key
cat that the claim predicts. -/
theorem C3_counterexample :
    analyzeWordsInAbstract (some "The cat sat.") [" Cat "] =
      some [(" cat ", { count := 1, sentences := ["The cat sat."] })] ∧
    List.lookup "cat" (analyzeBody "The cat sat." [" Cat "]) = none := by
  refine ⟨by decide, by decide⟩

/-- C3 (amended): analyze lower-cases each term (without trimming) before
processing, and for every term t of the input list the result mapping
holds an entry under the key lower(t). -/
theorem C3_keys_are_lowercased_terms (a : String) (ws : List String) (t : String)
    (h1 : a ≠ "") (h2 : t ∈ ws) :
    ∃ r, analyzeWordsInAbstract (some a) ws = some r ∧ ∃ e, (pyLower t, e) ∈ r := by
  refine ⟨analyzeBody a ws, by simp [analyzeWordsInAbstract, h1], ?_⟩
  rcases List.mem_map.mp (analyzeBody_key_mem a t ws h2) with ⟨⟨k, e⟩, hmem, hk⟩
  refine ⟨e, ?_⟩
  cases hk
  exact hmem

theorem C3_witness :
    ∃ r, analyzeWordsInAbstract (some "The dog ran.") ["Dog"] = some r ∧
      ∃ e, (pyLower "Dog", e) ∈ r :=
  C3_keys_are_lowercased_terms "The dog ran." ["Dog"] "Dog" (by decide) (by decide)

/-- C6: the four extraction strategies run in strict order and the first
non-empty value wins, later methods not being attempted: a non-empty
method 1 value is the result whatever the rest of the page holds, and each
later method is consulted only when every earlier one was left falsy. -/
theorem C6_strict_fallback_order (doc : Doc) (t : String)
    (h1 : doc.abstractDiv = some t) (h2 : pyStrip t ≠ "") :
    extractAbstract doc = some (pyStrip t) ∧
    (∀ d c, falsy (stage1 d) = true → d.metaDesc = some c →
      pyStrip (c.getD "") ≠ "" → extractAbstract d = some (pyStrip (c.getD ""))) ∧
    (∀ d c, falsy (stage2 d) = true → d.citationAbstract = some c →
      pyStrip (c.getD "") ≠ "" → extractAbstract d = some (pyStrip (c.getD ""))) ∧
    (∀ d u, falsy (stage3 d) = true → method4 d.paragraphs = some u →
      extractAbstract d = some u) := by
  refine ⟨?_, ?_, ?_, ?_⟩
  · have e1 : stage1 doc = some (pyStrip t) := by simp [stage1, h1]
    have f1 : falsy (stage1 doc) = false := by rw [e1]; simp [falsy, h2]
    have e2 : stage2 doc = some (pyStrip t) := by rw [stage2, f1]; simp [e1]
    have f2 : falsy (stage2 doc) = false := by rw [e2]; simp [falsy, h2]
    have e3 : stage3 doc = some (pyStrip t) := by rw [stage3, f2]; simp [e2]
    have f3 : falsy (stage3 doc) = false := by rw [e3]; simp [falsy, h2]
    rw [extractAbstract, f3]
    simpa using e3
  · intro d c hf1 hc hne
    have e2 : stage2 d = some (pyStrip (c.getD "")) := by rw [stage2, hf1]; simp [hc]
    have f2 : falsy (stage2 d) = false := by rw [e2]; simp [falsy, hne]
    have e3 : stage3 d = some (pyStrip (c.getD "")) := by rw [stage3, f2]; simp [e2]
    have f3 : falsy (stage3 d) = false := by rw [e3]; simp [falsy, hne]
    rw [extractAbstract, f3]
    simpa using e3
  · intro d c hf2 hc hne
    have e3 : stage3 d = some (pyStrip (c.getD "")) := by rw [stage3, hf2]; simp [hc]
    have f3 : falsy (stage3 d) = false := by rw [e3]; simp [falsy, hne]
    rw [extractAbstract, f3]
    simpa using e3
  · intro d u hf3 hm
    simp [extractAbstract, hf3, hm]

/-- A page holding both a method 1 abstract container and a method 3
citation_abstract meta tag, with different texts. -/
def docBothMethods : Doc :=
  { abstractDiv := some "Method one abstract text."
  , metaDesc := none
  , citationAbstract := some (some "Method three citation abstract text.")
  , paragraphs := [] }

theorem C6_witness :
    extractAbstract docBothMethods = some (pyStrip "Method one abstract text.") :=
  (C6_strict_fallback_order docBothMethods "Method one abstract text."
    rfl (by decide)).1

lemma isSuccessPath_processOne_some (a : String) (ws : List String) (pid : String)
    (h1 : a ≠ "") (h2 : pyStartsWith a "Error" = false) :
    isSuccessPath (processOne (some a) ws pid) = true := by
  cases hA : analyzeWordsInAbstract (some a) ws with
  | none => simp [processOne, h1, h2, hA, isSuccessPath]
  | some rs =>
    by_cases hrs : rs = [] <;> simp [processOne, h1, h2, hA, hrs, isSuccessPath]

/-- C9: the driver takes the success branch (abstract displayed, analyzer
run) exactly when the fetch result is a non-empty string that does not
start with Error; in particular a genuinely extracted abstract whose text
begins with Error is routed to the failure branch. -/
theorem C9_success_iff_not_error_prefixed (r : Option String) (ws : List String)
    (pid : String) :
    (isSuccessPath (processOne r ws pid) = true ↔
      ∃ a, r = some a ∧ a ≠ "" ∧ pyStartsWith a "Error" = false) ∧
    (∀ ws2 pid2, isSuccessPath
      (processOne (some "Error-prone DNA repair is studied.") ws2 pid2) = false) := by
  constructor
  · cases r with
    | none => simp [processOne, isSuccessPath]
    | some a =>
      constructor
      · intro hsp
        by_cases h : a ≠ "" ∧ pyStartsWith a "Error" = false
        · exact ⟨a, rfl, h.1, h.2⟩
        · exfalso
          simp only [processOne] at hsp
          rw [if_neg h] at hsp
          simp [isSuccessPath] at hsp
      · rintro ⟨a2, ha2, hne, hsw⟩
        cases ha2
        exact isSuccessPath_processOne_some a ws pid hne hsw
  · intro ws2 pid2
    have hsw : pyStartsWith "Error-prone DNA repair is studied." "Error" = true := by
      decide
    have hcond : ¬("Error-prone DNA repair is studied." ≠ "" ∧
        pyStartsWith "Error-prone DNA repair is studied." "Error" = false) := by
      rw [hsw]
      simp
    simp only [processOne]
    rw [if_neg hcond]
    rfl

theorem C9_witness :
    isSuccessPath (processOne (some "CANCER is studied.") ["cancer"] "123") = true :=
  (C9_success_iff_not_error_prefixed (some "CANCER is studied.") ["cancer"] "123").1.mpr
    ⟨"CANCER is studied.", rfl, by decide, by decide⟩

/-- C10: for a non-empty abstract, whenever the entry an analysis produced
for a term has at least one matching sentence, its count is at least 1:
every sentence is a contiguous substring of the abstract, so a term found
in a sentence is also found by the whole-abstract substring count. -/
theorem C10_sentences_imply_count_pos (a : String) (ws : List String)
    (k : String) (e : Entry) (_ha : a ≠ "") (h : (k, e) ∈ analyzeBody a ws)
    (hs : e.sentences ≠ []) : 1 ≤ e.count := by
  have he := analyzeBody_mem a ws k e h
  subst he
  have hfil : ((splitSentences a).filter fun s => strContains (pyLower s) k) ≠ [] := by
    intro hnil
    apply hs
    simp [mkEntry, hnil]
  obtain ⟨s, hsmem⟩ := List.exists_mem_of_ne_nil _ hfil
  have hsent : s ∈ splitSentences a := List.mem_of_mem_filter hsmem
  have hcond : strContains (pyLower s) k = true := (List.mem_filter.mp hsmem).2
  have h1 : k.data <:+: (pyLower s).data := (infixOf_iff _ _).mp hcond
  have h2 : s.data <:+: a.data := splitSentences_infix a s hsent
  have h3 : (pyLower s).data <:+: (pyLower a).data := by
    simpa [pyLower] using h2.map Char.toLower
  show 1 ≤ strCount (pyLower a) k
  exact strCount_pos _ _ ((infixOf_iff _ _).mpr (h1.trans h3))

theorem C10_witness :
    1 ≤ ({ count := 1, sentences := ["The cat sat."] } : Entry).count :=
  C10_sentences_imply_count_pos "The cat sat." ["cat"] "cat"
    { count := 1, sentences := ["The cat sat."] } (by decide) (by decide) (by decide)

end Pubmed
